import Mathlib

/-!
Shallow embedding of the multi-provider AI-service core of the
comfy-workflow-agent UI (source: `src/ui/src/App.tsx`, which bundles the
app component and the `aiService` module).  Strings are modelled as
`List Char`; JavaScript values that flow through `JSON.parse` /
`JSON.stringify` are modelled by the mutual inductive `Js`.  Machine
strings decoded from the SSE byte stream are modelled at the character
level (the `TextDecoder` with `stream:true` makes byte-level splits of a
UTF-8 stream transparent, so character-level chunking is the faithful
abstraction of arbitrary byte chunking).
-/

/-! ### Character classes and basic string helpers -/

/-- Left curly brace character, written via its code point. -/
def curlyL : Char := Char.ofNat 123

/-- Right curly brace character, written via its code point. -/
def curlyR : Char := Char.ofNat 125

/-- Single-quote character. -/
def squote : Char := Char.ofNat 39

/-- Backtick character. -/
def btick : Char := Char.ofNat 96

/-- Whitespace as matched by the JavaScript regex class and by
`String.prototype.trim` for the inputs this code handles:
space, tab, newline, carriage return, vertical tab, form feed. -/
def isWsRe (c : Char) : Bool :=
  c = ' ' || c = '\t' || c = '\n' || c = '\r' || c = Char.ofNat 11 || c = Char.ofNat 12

/-- Whitespace accepted between tokens by `JSON.parse`
(space, tab, newline, carriage return). -/
def isJsonWs (c : Char) : Bool :=
  c = ' ' || c = '\t' || c = '\n' || c = '\r'

/-- JavaScript `String.prototype.trim`. -/
def jsTrim (s : List Char) : List Char :=
  ((s.dropWhile isWsRe).reverse.dropWhile isWsRe).reverse

/-- GetSubstitution of the ECMAScript specification for a string
replacement against a capture-group-free regex: inside the replacement,
`$$` inserts a dollar sign, `$&` the matched substring, a dollar followed
by a backtick the part of the subject before the match, `$` followed by a
single quote the part after it; any other dollar (including `$1`-style
references, which have no group to refer to here, and `$<`, with no named
groups) is kept literally. -/
def expandRepl (matched before after : List Char) : List Char → List Char
  | [] => []
  | c :: rest =>
    if c = '$' then
      match rest with
      | [] => ['$']
      | d :: rest' =>
        if d = '$' then '$' :: expandRepl matched before after rest'
        else if d = '&' then matched ++ expandRepl matched before after rest'
        else if d = btick then before ++ expandRepl matched before after rest'
        else if d = squote then after ++ expandRepl matched before after rest'
        else '$' :: expandRepl matched before after (d :: rest')
    else c :: expandRepl matched before after rest

/-- Fuel-indexed global replacement, the semantics of
`String.prototype.replace` with a `g`-flagged regex whose metacharacters
have been escaped (see `newRP` in the source) and a string replacement:
every non-overlapping occurrence of `pat`, scanned left to right, is
replaced by `rep` with JavaScript's replacement patterns expanded
(`expandRepl`); `before` carries the part of the original subject already
scanned, which `$` followed by a backtick refers to. -/
def jsReplaceAllF (pat rep : List Char) : Nat → List Char → List Char → List Char
  | 0, _, s => s
  | _ + 1, _, [] => []
  | f + 1, before, c :: cs =>
    if pat ≠ [] ∧ pat.isPrefixOf (c :: cs) then
      expandRepl pat before (cs.drop (pat.length - 1)) rep
        ++ jsReplaceAllF pat rep f (before ++ pat) (cs.drop (pat.length - 1))
    else
      c :: jsReplaceAllF pat rep f (before ++ [c]) cs

/-- Global replacement (enough fuel for the whole input). -/
def jsReplaceAll (pat rep s : List Char) : List Char :=
  jsReplaceAllF pat rep s.length [] s

/-- Fuel-indexed first-occurrence replacement, the semantics of
`String.prototype.replace` with a plain string pattern; its only use
here (`line.replace('data: ', '')`) has the empty string as replacement,
for which JavaScript's replacement-pattern expansion is vacuous, so
literal insertion is exact. -/
def jsReplaceFirstF (pat rep : List Char) : Nat → List Char → List Char
  | 0, s => s
  | _ + 1, [] => []
  | f + 1, c :: cs =>
    if pat ≠ [] ∧ pat.isPrefixOf (c :: cs) then
      rep ++ cs.drop (pat.length - 1)
    else
      c :: jsReplaceFirstF pat rep f cs

/-- First-occurrence literal replacement. -/
def jsReplaceFirst (pat rep s : List Char) : List Char :=
  jsReplaceFirstF pat rep s.length s

/-- Whether `pat` occurs as a contiguous substring of `s`. -/
def containsPat (pat : List Char) : List Char → Bool
  | [] => pat.isEmpty
  | c :: cs => pat.isPrefixOf (c :: cs) || containsPat pat cs

/-- `String.prototype.split(',')`: always returns at least one piece. -/
def splitComma : List Char → List (List Char)
  | [] => [[]]
  | c :: cs =>
    if c = ',' then [] :: splitComma cs
    else
      match splitComma cs with
      | [] => [[c]]
      | l :: ls => (c :: l) :: ls

/-- Splits a buffer into its complete (newline-terminated) lines and the
trailing partial line, the effect of `buffer.split('\n')` followed by
`buffer = lines.pop()` in the SSE reader. -/
def splitComplete : List Char → List (List Char) × List Char
  | [] => ([], [])
  | c :: cs =>
    if c = '\n' then
      let r := splitComplete cs
      ([] :: r.1, r.2)
    else
      let r := splitComplete cs
      match r.1 with
      | [] => ([], c :: r.2)
      | l :: ls => ((c :: l) :: ls, r.2)

/-- First occurrence of `pat` inside `s`, split as `(before, after)`. -/
def findSub (pat : List Char) : List Char → Option (List Char × List Char)
  | [] => if pat.isEmpty then some ([], []) else none
  | c :: cs =>
    if pat.isPrefixOf (c :: cs) then some ([], (c :: cs).drop pat.length)
    else (findSub pat cs).map (fun r => (c :: r.1, r.2))

/-! ### JavaScript values (the image of `JSON.parse`) -/

mutual

/-- A JavaScript value as produced by `JSON.parse`.  Numbers keep their
source spelling (`raw`), which is how they are reproduced here by
`JSON.stringify` and string coercion. -/
inductive Js where
  | null
  | bool (b : Bool)
  | num (raw : List Char)
  | str (s : List Char)
  | arr (l : JsA)
  | obj (o : JsO)

/-- A JavaScript array (list of `Js` values). -/
inductive JsA where
  | nil
  | cons (hd : Js) (tl : JsA)

/-- A JavaScript object: insertion-ordered fields with unique keys. -/
inductive JsO where
  | nil
  | cons (key : List Char) (val : Js) (tl : JsO)

end

/-- Property update with JavaScript object semantics: an existing key
keeps its position and gets the new value, a new key is appended. -/
def objInsert : JsO → List Char → Js → JsO
  | .nil, k, v => .cons k v .nil
  | .cons k' v' tl, k, v =>
    if k' = k then .cons k' v tl else .cons k' v' (objInsert tl k v)

/-- Object property lookup (keys are unique after `objInsert`). -/
def objGet : JsO → List Char → Option Js
  | .nil, _ => none
  | .cons k' v' tl, k => if k' = k then some v' else objGet tl k

/-- JavaScript property access `v[k]`: defined only on objects, since the
fields accessed by this code do not exist on primitives or arrays. -/
def jsGet (v : Js) (k : List Char) : Option Js :=
  match v with
  | .obj o => objGet o k
  | _ => none

/-- JavaScript element access `v[0]`. -/
def jsIndex0 : Js → Option Js
  | .arr (.cons h _) => some h
  | .str (c :: _) => some (.str [c])
  | .obj o => objGet o ['0']
  | _ => none

/-- Whether a raw JSON numeral denotes zero (its mantissa has no nonzero
digit). -/
def numIsZero (raw : List Char) : Bool :=
  raw.all (fun c => c = '-' || c = '0' || c = '.' || c = 'e' || c = 'E' || c = '+')

/-- JavaScript truthiness of a value. -/
def truthy : Js → Bool
  | .null => false
  | .bool b => b
  | .num raw => !(numIsZero raw)
  | .str s => !s.isEmpty
  | .arr _ => true
  | .obj _ => true

/-- Keeps a present property value only when it is truthy (the shape of
every `if (x.f)` guard in the source). -/
def jsTruthyOpt : Option Js → Option Js
  | some v => if truthy v then some v else none
  | none => none

/-- JavaScript `x || d` on an optionally-present value. -/
def jsOrElse (o : Option Js) (d : Js) : Js :=
  match o with
  | some v => if truthy v then v else d
  | none => d

mutual

/-- JavaScript string coercion `String(v)`. -/
def jsToString : Js → List Char
  | .null => "null".data
  | .bool true => "true".data
  | .bool false => "false".data
  | .num raw => raw
  | .str s => s
  | .arr l => jsToStringArr l
  | .obj _ => "[object Object]".data

/-- `Array.prototype.toString`: elements joined by commas. -/
def jsToStringArr : JsA → List Char
  | .nil => []
  | .cons hd .nil => jsToStringElem hd
  | .cons hd (.cons h2 t2) => jsToStringElem hd ++ ',' :: jsToStringArr (.cons h2 t2)
termination_by structural l => l

/-- One array element inside a join (`null` prints as empty). -/
def jsToStringElem : Js → List Char
  | .null => []
  | .bool true => "true".data
  | .bool false => "false".data
  | .num raw => raw
  | .str s => s
  | .arr l => jsToStringArr l
  | .obj _ => "[object Object]".data

end

/-- Hexadecimal digit for `n < 16`. -/
def hexDig (n : Nat) : Char :=
  if n < 10 then Char.ofNat (48 + n) else Char.ofNat (87 + n)

/-- Escape of one character inside a `JSON.stringify` string literal. -/
def escChar (c : Char) : List Char :=
  if c = '"' then ['\\', '"']
  else if c = '\\' then ['\\', '\\']
  else if c = '\n' then ['\\', 'n']
  else if c = '\r' then ['\\', 'r']
  else if c = '\t' then ['\\', 't']
  else if c = Char.ofNat 8 then ['\\', 'b']
  else if c = Char.ofNat 12 then ['\\', 'f']
  else if c.toNat < 32 then
    '\\' :: 'u' :: '0' :: '0' :: hexDig (c.toNat / 16) :: [hexDig (c.toNat % 16)]
  else [c]

/-- Escape of a whole string body for `JSON.stringify`. -/
def escStr (s : List Char) : List Char :=
  (s.map escChar).flatten

mutual

/-- Compact `JSON.stringify` of a value. -/
def stringify : Js → List Char
  | .null => "null".data
  | .bool true => "true".data
  | .bool false => "false".data
  | .num raw => raw
  | .str s => '"' :: escStr s ++ ['"']
  | .arr l => '[' :: stringifyArr l ++ [']']
  | .obj o => curlyL :: stringifyObj o ++ [curlyR]
termination_by structural v => v

/-- Comma-joined `JSON.stringify` of array elements. -/
def stringifyArr : JsA → List Char
  | .nil => []
  | .cons hd .nil => stringify hd
  | .cons hd (.cons h2 t2) => stringify hd ++ ',' :: stringifyArr (.cons h2 t2)
termination_by structural l => l

/-- Comma-joined `JSON.stringify` of object fields. -/
def stringifyObj : JsO → List Char
  | .nil => []
  | .cons k v .nil => '"' :: escStr k ++ '"' :: ':' :: stringify v
  | .cons k v (.cons k2 v2 t2) =>
    '"' :: escStr k ++ '"' :: ':' :: stringify v ++ ',' :: stringifyObj (.cons k2 v2 t2)
termination_by structural o => o

end

/-! ### JSON.parse -/

/-- Value of a hexadecimal digit. -/
def hexVal (c : Char) : Option Nat :=
  if '0' ≤ c ∧ c ≤ '9' then some (c.toNat - 48)
  else if 'a' ≤ c ∧ c ≤ 'f' then some (c.toNat - 87)
  else if 'A' ≤ c ∧ c ≤ 'F' then some (c.toNat - 55)
  else none

/-- Resolves one escape sequence after a backslash in a JSON string. -/
def readEsc : List Char → Option (Char × List Char)
  | [] => none
  | e :: cs =>
    if e = '"' then some ('"', cs)
    else if e = '\\' then some ('\\', cs)
    else if e = '/' then some ('/', cs)
    else if e = 'b' then some (Char.ofNat 8, cs)
    else if e = 'f' then some (Char.ofNat 12, cs)
    else if e = 'n' then some ('\n', cs)
    else if e = 'r' then some ('\r', cs)
    else if e = 't' then some ('\t', cs)
    else if e = 'u' then
      match cs with
      | a :: b :: c :: d :: rest =>
        match hexVal a, hexVal b, hexVal c, hexVal d with
        | some x, some y, some z, some w =>
          some (Char.ofNat (((x * 16 + y) * 16 + z) * 16 + w), rest)
        | _, _, _, _ => none
      | _ => none
    else none

/-- Parses the body of a JSON string literal (after the opening quote);
returns the decoded contents and the input after the closing quote. -/
def parseStrBodyF : Nat → List Char → Option (List Char × List Char)
  | 0, _ => none
  | _ + 1, [] => none
  | f + 1, c :: cs =>
    if c = '"' then some ([], cs)
    else if c = '\\' then
      match readEsc cs with
      | some (ch, rest) => (parseStrBodyF f rest).map (fun r => (ch :: r.1, r.2))
      | none => none
    else if c.toNat < 32 then none
    else (parseStrBodyF f cs).map (fun r => (c :: r.1, r.2))

/-- Optional fraction part of a JSON number (returns raw text). -/
def parseFracPart : List Char → Option (List Char × List Char)
  | [] => some ([], [])
  | c :: cs =>
    if c = '.' then
      let ds := cs.takeWhile Char.isDigit
      if ds.isEmpty then none else some ('.' :: ds, cs.dropWhile Char.isDigit)
    else some ([], c :: cs)

/-- Optional exponent part of a JSON number (returns raw text). -/
def parseExpPart : List Char → Option (List Char × List Char)
  | [] => some ([], [])
  | c :: cs =>
    if c = 'e' ∨ c = 'E' then
      let p : List Char × List Char :=
        match cs with
        | d :: ds => if d = '+' ∨ d = '-' then ([d], ds) else ([], cs)
        | [] => ([], [])
      let ds := p.2.takeWhile Char.isDigit
      if ds.isEmpty then none else some (c :: p.1 ++ ds, p.2.dropWhile Char.isDigit)
    else some ([], c :: cs)

/-- Parses a JSON number at the head of the input, keeping its raw
spelling. -/
def parseNumAt (s : List Char) : Option (List Char × List Char) :=
  let p : List Char × List Char :=
    match s with
    | c :: cs => if c = '-' then (['-'], cs) else ([], s)
    | [] => ([], [])
  match p.2 with
  | [] => none
  | d :: rest =>
    let ip : Option (List Char × List Char) :=
      if d = '0' then some (['0'], rest)
      else if d.isDigit then
        some (d :: rest.takeWhile Char.isDigit, rest.dropWhile Char.isDigit)
      else none
    match ip with
    | none => none
    | some (intRaw, s1) =>
      match parseFracPart s1 with
      | none => none
      | some (fracRaw, s2) =>
        match parseExpPart s2 with
        | none => none
        | some (expRaw, s3) => some (p.1 ++ intRaw ++ fracRaw ++ expRaw, s3)

mutual

/-- Fuel-indexed JSON value parser (the core of `JSON.parse`). -/
def parseValueF : Nat → List Char → Option (Js × List Char)
  | 0, _ => none
  | f + 1, s =>
    let s1 := s.dropWhile isJsonWs
    match s1 with
    | [] => none
    | c :: cs =>
      if c = curlyL then
        let s2 := cs.dropWhile isJsonWs
        match s2 with
        | [] => none
        | d :: ds =>
          if d = curlyR then some (.obj .nil, ds)
          else (parseObjF f .nil s2).map (fun r => (.obj r.1, r.2))
      else if c = '[' then
        let s2 := cs.dropWhile isJsonWs
        match s2 with
        | [] => none
        | d :: ds =>
          if d = ']' then some (.arr .nil, ds)
          else (parseArrF f s2).map (fun r => (.arr r.1, r.2))
      else if c = '"' then
        (parseStrBodyF (cs.length + 1) cs).map (fun r => (.str r.1, r.2))
      else if ("true".data).isPrefixOf s1 then some (.bool true, s1.drop 4)
      else if ("false".data).isPrefixOf s1 then some (.bool false, s1.drop 5)
      else if ("null".data).isPrefixOf s1 then some (.null, s1.drop 4)
      else (parseNumAt s1).map (fun r => (.num r.1, r.2))

/-- Parses the nonempty element list of a JSON array, input starting at
the first element; consumes through the closing bracket. -/
def parseArrF : Nat → List Char → Option (JsA × List Char)
  | 0, _ => none
  | f + 1, s =>
    match parseValueF f s with
    | none => none
    | some (v, rest) =>
      match rest.dropWhile isJsonWs with
      | [] => none
      | c :: cs =>
        if c = ',' then
          match parseArrF f cs with
          | some (tl, rest') => some (.cons v tl, rest')
          | none => none
        else if c = ']' then some (.cons v .nil, cs)
        else none

/-- Parses the nonempty field list of a JSON object, input starting at
the first key; consumes through the closing brace.  Duplicate keys get
JavaScript object semantics via `objInsert`. -/
def parseObjF : Nat → JsO → List Char → Option (JsO × List Char)
  | 0, _, _ => none
  | f + 1, acc, s =>
    match s with
    | [] => none
    | c :: cs =>
      if c = '"' then
        match parseStrBodyF (cs.length + 1) cs with
        | none => none
        | some (k, r1) =>
          match r1.dropWhile isJsonWs with
          | [] => none
          | d :: ds =>
            if d = ':' then
              match parseValueF f ds with
              | none => none
              | some (v, r2) =>
                let acc' := objInsert acc k v
                match r2.dropWhile isJsonWs with
                | [] => none
                | e :: es =>
                  if e = ',' then parseObjF f acc' (es.dropWhile isJsonWs)
                  else if e = curlyR then some (acc', es)
                  else none
            else none
      else none

end

/-- `JSON.parse`: a complete value with only trailing whitespace allowed;
`none` is a thrown `SyntaxError` in JavaScript. -/
def parseJson (s : List Char) : Option Js :=
  match parseValueF (2 * s.length + 8) s with
  | some (v, rest) => if rest.dropWhile isJsonWs = [] then some v else none
  | none => none

/-! ### Template resolver (`resolveTemplate` and `newRP` in the source).
`newRP` escapes every regex metacharacter of the pattern, so the
`g`-flagged regex it builds matches the pattern text literally;
`jsReplaceAll` is exactly that literal global replacement. -/

/-- JavaScript `typeof val === 'object'` (true for arrays and `null`). -/
def isObjectLike : Js → Bool
  | .null => true
  | .arr _ => true
  | .obj _ => true
  | _ => false

/-- One step of `resolveTemplate`: substitutes one variable into the
accumulated result, with the three quoting forms for composite values. -/
def resolveVar (result : List Char) (kv : List Char × Js) : List Char :=
  let placeholder := '$' :: kv.1
  if isObjectLike kv.2 then
    let jsonVal := stringify kv.2
    let r1 := jsReplaceAll ('"' :: placeholder ++ ['"']) jsonVal result
    let r2 := jsReplaceAll (squote :: placeholder ++ [squote]) jsonVal r1
    jsReplaceAll placeholder jsonVal r2
  else
    jsReplaceAll placeholder (jsToString kv.2) result

/-- `resolveTemplate(templateStr, vars)`: substitutes each variable in
key order (`Object.keys` insertion order, modelled by the list order). -/
def resolveTemplate (templateStr : List Char) (vars : List (List Char × Js)) : List Char :=
  vars.foldl resolveVar templateStr

/-! ### Custom-API adapter (`callCustomLLM`) -/

/-- The per-provider request template of the custom variant. -/
structure CustomConfig where
  endpoint : Option (List Char)
  headers : Option (List Char)
  body : Option (List Char)

/-- The settings fields `callCustomLLM` reads. -/
structure CustomSettings where
  baseUrl : List Char
  modelName : List Char
  apiKey : Option (List Char)
  customConfig : Option CustomConfig

/-- JavaScript `s || d` for an optionally-present string field. -/
def jsOrStrTpl (o : Option (List Char)) (d : List Char) : List Char :=
  match o with
  | some s => if s.isEmpty then d else s
  | none => d

/-- Reads a field of `settings.customConfig || {}`. -/
def customField (s : CustomSettings) (f : CustomConfig → Option (List Char)) :
    Option (List Char) :=
  match s.customConfig with
  | some cc => f cc
  | none => none

/-- Default endpoint of the default configuration. -/
def defaultEndpoint : List Char := "/chat/completions".data

/-- Default headers template: `JSON.stringify` of the literal object in
the source. -/
def defaultHeaders : List Char :=
  stringify (.obj (.cons ("Content-Type".data) (.str ("application/json".data))
    (.cons ("Authorization".data) (.str ("Bearer $apiKey".data)) .nil)))

/-- Default body template: `JSON.stringify` of the literal object in the
source. -/
def defaultBody : List Char :=
  stringify (.obj (.cons ("model".data) (.str ("$model".data))
    (.cons ("messages".data) (.str ("$messages".data))
    (.cons ("temperature".data) (.num ("0.5".data))
    (.cons ("stream".data) (.bool false) .nil)))))

/-- Effective endpoint template. -/
def endpointTpl (s : CustomSettings) : List Char :=
  jsOrStrTpl (customField s (fun cc => cc.endpoint)) defaultEndpoint

/-- Effective headers template. -/
def headersTpl (s : CustomSettings) : List Char :=
  jsOrStrTpl (customField s (fun cc => cc.headers)) defaultHeaders

/-- Effective body template. -/
def bodyTpl (s : CustomSettings) : List Char :=
  jsOrStrTpl (customField s (fun cc => cc.body)) defaultBody

/-- Drops one trailing slash (`replace(/\/$/, '')`). -/
def stripTrailSlash (s : List Char) : List Char :=
  match s.reverse with
  | c :: cs => if c = '/' then cs.reverse else s
  | [] => s

/-- Resolved request URL: an absolute endpoint is used verbatim,
otherwise the base (trailing slash stripped) is joined with the endpoint
path (leading slash enforced). -/
def customUrl (s : CustomSettings) : List Char :=
  let ep := endpointTpl s
  if ("http".data).isPrefixOf ep then ep
  else
    let base := stripTrailSlash s.baseUrl
    let path :=
      match ep with
      | c :: _ => if c = '/' then ep else '/' :: ep
      | [] => '/' :: ep
    base ++ path

/-- The template variable map built by `callCustomLLM`, in insertion
order: model, apiKey, prompt, system, user\_prompt, messages. -/
def customVariables (s : CustomSettings) (prompt sysInstr : List Char) :
    List (List Char × Js) :=
  [(("model".data), .str s.modelName),
   (("apiKey".data), .str (s.apiKey.getD [])),
   (("prompt".data), .str (sysInstr ++ '\n' :: '\n' :: prompt)),
   (("system".data), .str sysInstr),
   (("user_prompt".data), .str prompt),
   (("messages".data), .arr
     (.cons (.obj (.cons ("role".data) (.str ("system".data))
       (.cons ("content".data) (.str sysInstr) .nil)))
     (.cons (.obj (.cons ("role".data) (.str ("user".data))
       (.cons ("content".data) (.str prompt) .nil))) .nil)))]

/-- The resolved headers string. -/
def resolvedHeadersStr (s : CustomSettings) (prompt sysInstr : List Char) : List Char :=
  resolveTemplate (headersTpl s) (customVariables s prompt sysInstr)

/-- The resolved body string. -/
def resolvedBodyStr (s : CustomSettings) (prompt sysInstr : List Char) : List Char :=
  resolveTemplate (bodyTpl s) (customVariables s prompt sysInstr)

/-- The HTTP POST that `callCustomLLM` issues when template resolution
succeeds. -/
structure HttpRequest where
  url : List Char
  headers : Js
  body : List Char

/-- The pre-request phase of `callCustomLLM`: configuration check,
template resolution and the two JSON validations.  An `Except.error`
models a thrown error: in that case no `HttpRequest` value exists, i.e.
no request is sent and the delta callback is never invoked (the source
calls `onStream` only after the response arrives). -/
def callCustomRequest (s : CustomSettings) (prompt sysInstr : List Char) :
    Except (List Char) HttpRequest :=
  if s.baseUrl.isEmpty then .error ("Base URL required for custom provider".data)
  else
    match parseJson (resolvedHeadersStr s prompt sysInstr) with
    | none => .error ("Invalid Headers Configuration".data)
    | some hdrs =>
      match parseJson (resolvedBodyStr s prompt sysInstr) with
      | none => .error ("Invalid Body Template JSON".data)
      | some _ => .ok ⟨customUrl s, hdrs, resolvedBodyStr s prompt sysInstr⟩

/-- The `data.choices && data.choices[0]` condition of the response
extractor, yielding the first choice when the condition is truthy. -/
def choicesCond (data : Js) : Option Js :=
  match jsTruthyOpt (jsGet data ("choices".data)) with
  | some ch => jsTruthyOpt (jsIndex0 ch)
  | none => none

/-- The value assigned to `text` by the branch chain of the response
extractor (`none` models "still the initial empty string or undefined"). -/
def customAssigned (data : Js) : Option Js :=
  match choicesCond data with
  | some c0 =>
    match jsTruthyOpt (jsGet c0 ("message".data)) with
    | some m => jsGet m ("content".data)
    | none => jsTruthyOpt (jsGet c0 ("text".data))
  | none =>
    match jsTruthyOpt (jsGet data ("content".data)) with
    | some cv => some cv
    | none => jsTruthyOpt (jsGet data ("response".data))

/-- Reply-text extraction of `callCustomLLM` from the parsed response
body, including the `if (!text) text = JSON.stringify(data)` fallback. -/
def extractCustomText (data : Js) : Js :=
  match customAssigned data with
  | some v => if truthy v then v else .str (stringify data)
  | none => .str (stringify data)

/-! ### Cloud-SDK adapter: grounding-source de-duplication
(`callGoogleGemini`) -/

/-- A grounding citation collected during streaming. -/
structure GSource where
  uri : List Char
  title : List Char
deriving DecidableEq

/-- One `Map.set` step of `new Map(allSources.map(item => [item.uri, item]))`:
an existing key keeps its position and gets the new value, a new key is
appended. -/
def jsMapInsert (m : List GSource) (s : GSource) : List GSource :=
  if m.any (fun t => t.uri = s.uri) then
    m.map (fun t => if t.uri = s.uri then s else t)
  else m ++ [s]

/-- `Array.from(new Map(allSources.map(item => [item.uri, item])).values())`. -/
def dedupeByUri (l : List GSource) : List GSource :=
  l.foldl jsMapInsert []

/-- Keeps the first occurrence of each element, preserving order
(reference function for stating the de-duplication property). -/
def firstSeenAux (seen : List (List Char)) : List (List Char) → List (List Char)
  | [] => []
  | x :: xs =>
    if x ∈ seen then firstSeenAux seen xs else x :: firstSeenAux (x :: seen) xs

/-- First-seen-order de-duplication of a list of strings. -/
def firstSeen (l : List (List Char)) : List (List Char) :=
  firstSeenAux [] l

/-! ### Orchestration-stream adapter (`callPythonBackendStream`) -/

/-- The argument object passed to the `onStatus` callback. -/
structure AgentStatusM where
  node : Option Js
  displayText : Js
  statusVal : Js
  details : Option Js

/-- One observable callback invocation of the SSE loop: a text delta
(`onStream`) or a status update (`onStatus`). -/
inductive CbEvent where
  | delta (text : List Char)
  | statusUpd (st : AgentStatusM)

/-- Optional-chained metadata access `data.metadata?.f`. -/
def metaField (data : Js) (f : List Char) : Option Js :=
  match jsGet data ("metadata".data) with
  | some m => jsGet m f
  | none => none

/-- Processing of one complete SSE line: the body of the
`for (const line of lines)` loop, recording the dispatched callbacks and
growing `fullText`. -/
def processLine (acc : List Char × List CbEvent) (line : List Char) :
    List Char × List CbEvent :=
  if ("data: ".data).isPrefixOf (jsTrim line) then
    let jsonStr := jsTrim (jsReplaceFirst ("data: ".data) [] line)
    if jsonStr = ("[DONE]".data) then acc
    else
      match parseJson jsonStr with
      | none => acc
      | some data =>
        let tIs : List Char → Bool := fun name =>
          match jsGet data ("type".data) with
          | some (.str t) => t == name
          | _ => false
        let chunkVal := jsGet data ("chunk".data)
        let chunkTruthy :=
          match chunkVal with
          | some v => truthy v
          | none => false
        if tIs ("status_update".data) then
          (acc.1, acc.2 ++ [.statusUpd ⟨metaField data ("node".data),
            jsOrElse (metaField data ("display_text".data)) (.str ("Processing...".data)),
            jsOrElse (metaField data ("status".data)) (.str ("processing".data)),
            none⟩])
        else if tIs ("meta_update".data) then
          (acc.1, acc.2 ++ [.statusUpd ⟨metaField data ("node".data),
            .str ("Processing found data...".data), .str ("processing".data),
            metaField data ("step_data".data)⟩])
        else if tIs ("content".data) || chunkTruthy then
          let text :=
            match chunkVal with
            | some v => if truthy v then jsToString v else []
            | none => []
          (acc.1 ++ text, acc.2 ++ [.delta text])
        else acc
  else acc

/-- The mutable state of the SSE read loop: accumulated text, dispatched
callbacks so far, and the carried-over partial line. -/
structure StreamAcc where
  fullText : List Char
  events : List CbEvent
  buffer : List Char

/-- State at loop entry. -/
def initStream : StreamAcc := ⟨[], [], []⟩

/-- One iteration of the read loop on a decoded chunk: append to the
buffer, split off the complete lines, keep the trailing partial line. -/
def processChunk (acc : StreamAcc) (chunk : List Char) : StreamAcc :=
  let r := splitComplete (acc.buffer ++ chunk)
  let p := r.1.foldl processLine (acc.fullText, acc.events)
  ⟨p.1, p.2, r.2⟩

/-- The whole read loop over a sequence of decoded chunks. -/
def processChunks (chunks : List (List Char)) : StreamAcc :=
  chunks.foldl processChunk initStream

/-! ### Structured-extraction engine (the parsing block of
`sendMessageToComfyAgent`) -/

/-- First pass of `cleanJsonString`: remove `//` line comments
(`replace(/\/\/.*$/gm, "")`). -/
def stripLineCommentsF : Nat → List Char → List Char
  | 0, s => s
  | _ + 1, [] => []
  | f + 1, c :: cs =>
    if ("//".data).isPrefixOf (c :: cs) then
      stripLineCommentsF f ((c :: cs).dropWhile (fun ch => !(ch = '\n' || ch = '\r')))
    else c :: stripLineCommentsF f cs

/-- Second pass of `cleanJsonString`: remove `/* */` block comments
(`replace(/\/\*[\s\S]*?\*\//g, "")`); an unclosed opener is left as is. -/
def stripBlockCommentsF : Nat → List Char → List Char
  | 0, s => s
  | _ + 1, [] => []
  | f + 1, c :: cs =>
    if ("/*".data).isPrefixOf (c :: cs) then
      match findSub ("*/".data) (cs.drop 1) with
      | some r => stripBlockCommentsF f r.2
      | none => c :: stripBlockCommentsF f cs
    else c :: stripBlockCommentsF f cs

/-- Third and fourth passes of `cleanJsonString`: collapse a trailing
comma before the given closer (`replace(/,\s*}/g, '}')` and the bracket
analogue). -/
def stripCommaCloseF (close : Char) : Nat → List Char → List Char
  | 0, s => s
  | _ + 1, [] => []
  | f + 1, c :: cs =>
    if c = ',' then
      match cs.dropWhile isWsRe with
      | d :: rest =>
        if d = close then close :: stripCommaCloseF close f rest
        else c :: stripCommaCloseF close f cs
      | [] => c :: stripCommaCloseF close f cs
    else c :: stripCommaCloseF close f cs

/-- `cleanJsonString`: strip line comments, block comments, then trailing
commas before `}` and before `]`. -/
def cleanJsonString (s : List Char) : List Char :=
  let a := stripLineCommentsF (s.length + 1) s
  let b := stripBlockCommentsF (a.length + 1) a
  let c := stripCommaCloseF curlyR (b.length + 1) b
  stripCommaCloseF ']' (c.length + 1) c

/-- The fixed label introducing the issues region. -/
def issuesLabel : List Char := "ISSUES_JSON:".data

/-- The fixed label introducing the related-questions region. -/
def relatedLabel : List Char := "RELATED_QUESTIONS:".data

/-- The fixed label introducing the suggested-actions region. -/
def actionsLabel : List Char := "SUGGESTED_ACTIONS:".data

/-- A three-backtick fence. -/
def fence3 : List Char := "```".data

/-- The opener of a json-tagged fenced block. -/
def fenceJson : List Char := "```json".data

/-- Shorthand for dropping regex-class whitespace. -/
def dropWs (s : List Char) : List Char := s.dropWhile isWsRe

/-- Lazy capture through the first closing bracket, as `[\s\S]*?\]` does;
fails when no closing bracket follows.  Returns the capture including the
bracket and the remaining input. -/
def takeThroughClose : List Char → Option (List Char × List Char)
  | [] => none
  | c :: cs =>
    if c = ']' then some ([c], cs)
    else (takeThroughClose cs).map (fun r => (c :: r.1, r.2))

/-- Attempt of `\s*(?:```(?:json)?\s*)?(\[[\s\S]*?\])(?:\s*```)?` at one
position (input already past the label); returns the bracketed capture
and the input after the whole match. -/
def tryTaggedAt (s : List Char) : Option (List Char × List Char) :=
  let s1 := dropWs s
  let s2 :=
    if fence3.isPrefixOf s1 then
      let t := s1.drop 3
      dropWs (if ("json".data).isPrefixOf t then t.drop 4 else t)
    else s1
  match s2 with
  | [] => none
  | c :: rest =>
    if c = '[' then
      match takeThroughClose rest with
      | some r =>
        let postW := dropWs r.2
        let post := if fence3.isPrefixOf postW then postW.drop 3 else r.2
        some ('[' :: r.1, post)
      | none => none
    else none

/-- First match of the tagged-array regex for a given label, as
`(text before the match, capture, text after the match)`. -/
def findTagged (label : List Char) : List Char → Option (List Char × List Char × List Char)
  | [] => none
  | c :: cs =>
    if label.isPrefixOf (c :: cs) then
      match tryTaggedAt ((c :: cs).drop label.length) with
      | some r => some ([], r.1, r.2)
      | none => (findTagged label cs).map (fun r => (c :: r.1, r.2.1, r.2.2))
    else (findTagged label cs).map (fun r => (c :: r.1, r.2.1, r.2.2))

/-- Lazy single-line capture `(.*?)\]` for the suggested-actions regex:
stops at the first closing bracket, fails at a line terminator or the end
of input.  Returns the capture (without brackets) and the input after the
bracket. -/
def captureNoNl : List Char → Option (List Char × List Char)
  | [] => none
  | c :: cs =>
    if c = ']' then some ([], cs)
    else if c = '\n' ∨ c = '\r' then none
    else (captureNoNl cs).map (fun r => (c :: r.1, r.2))

/-- Attempt of `\s*\[(.*?)\]` at one position (input already past the
label). -/
def tryActionsAt (s : List Char) : Option (List Char × List Char) :=
  match dropWs s with
  | [] => none
  | c :: rest => if c = '[' then captureNoNl rest else none

/-- First match of `SUGGESTED_ACTIONS:\s*\[(.*?)\]`, as
`(text before the match, capture, text after the match)`. -/
def findActions : List Char → Option (List Char × List Char × List Char)
  | [] => none
  | c :: cs =>
    if actionsLabel.isPrefixOf (c :: cs) then
      match tryActionsAt ((c :: cs).drop actionsLabel.length) with
      | some r => some ([], r.1, r.2)
      | none => (findActions cs).map (fun r => (c :: r.1, r.2.1, r.2.2))
    else (findActions cs).map (fun r => (c :: r.1, r.2.1, r.2.2))

/-- Attempt of ```` ```json\s*([\s\S]*?)\s*``` ```` at one position: the
capture is the text up to the first closing fence with surrounding
whitespace stripped. -/
def tryFenceAt (s : List Char) : Option (List Char × List Char) :=
  if fenceJson.isPrefixOf s then
    match findSub fence3 (s.drop 7) with
    | some r => some (jsTrim r.1, r.2)
    | none => none
  else none

/-- First match of the json-fence regex, as
`(text before the match, capture, text after the match)`. -/
def findFence : List Char → Option (List Char × List Char × List Char)
  | [] => none
  | c :: cs =>
    match tryFenceAt (c :: cs) with
    | some r => some ([], r.1, r.2)
    | none => (findFence cs).map (fun r => (c :: r.1, r.2.1, r.2.2))

/-- A diagnosed workflow issue as normalized by the extraction engine. -/
structure WorkflowIssue where
  id : List Char
  nodeId : Option Js
  severity : Js
  message : Js
  fixSuggestion : Option Js

/-- Normalization of one parsed issue element (`Date.now()` is passed in
as `now`). -/
def mkIssue (now idx : Nat) (issue : Js) : WorkflowIssue :=
  { id := ("ai-issue-".data) ++ (Nat.repr now).data ++ '-' :: (Nat.repr idx).data
    nodeId := jsTruthyOpt (jsGet issue ("nodeId".data))
    severity := jsOrElse (jsGet issue ("severity".data)) (.str ("warning".data))
    message := jsOrElse (jsGet issue ("message".data)) (.str ("Unknown issue".data))
    fixSuggestion := jsGet issue ("fixSuggestion".data) }

/-- Indexed normalization of all parsed issue elements. -/
def issuesFromJs (now : Nat) : Nat → JsA → List WorkflowIssue
  | _, .nil => []
  | idx, .cons hd tl => mkIssue now idx hd :: issuesFromJs now (idx + 1) tl

/-- Replacement-graph extraction: first json fence, cleaned, parsed;
any failure degrades to `none`. -/
def extractWorkflow (text : List Char) : Option Js :=
  match findFence text with
  | some r => if r.2.1.isEmpty then none else parseJson (cleanJsonString r.2.1)
  | none => none

/-- Issues extraction: tagged array region, cleaned, parsed, normalized;
any failure degrades to the empty list. -/
def extractIssues (now : Nat) (text : List Char) : List WorkflowIssue :=
  match findTagged issuesLabel text with
  | some r =>
    if r.2.1.isEmpty then []
    else
      match parseJson (cleanJsonString r.2.1) with
      | some (.arr l) => issuesFromJs now 0 l
      | _ => []
  | none => []

/-- Suggested-actions extraction: bracket capture split on commas, each
item trimmed and with every quote character removed
(`s.trim().replace(/['"]/g, '')`). -/
def extractActions (text : List Char) : List (List Char) :=
  match findActions text with
  | some r =>
    if r.2.1.isEmpty then []
    else (splitComma r.2.1).map (fun s => (jsTrim s).filter (fun c => !(c = squote || c = '"')))
  | none => []

/-- Related-questions extraction: tagged array region, cleaned, parsed;
any failure leaves the initial empty array. -/
def extractRelated (text : List Char) : Js :=
  match findTagged relatedLabel text with
  | some r =>
    if r.2.1.isEmpty then .arr .nil
    else
      match parseJson (cleanJsonString r.2.1) with
      | some v => v
      | none => .arr .nil
  | none => .arr .nil

/-- Display-text cleanup: the json fence replaced by the localized update
message, then the three tagged regions removed (first occurrence each,
applied in sequence), then trimmed. -/
def cleanDisplayText (updateMsg text : List Char) : List Char :=
  let t1 :=
    match findFence text with
    | some r => r.1 ++ updateMsg ++ r.2.2
    | none => text
  let t2 :=
    match findTagged issuesLabel t1 with
    | some r => r.1 ++ r.2.2
    | none => t1
  let t3 :=
    match findActions t2 with
    | some r => r.1 ++ r.2.2
    | none => t2
  let t4 :=
    match findTagged relatedLabel t3 with
    | some r => r.1 ++ r.2.2
    | none => t3
  jsTrim t4

/-! ### The uniform response contract (`sendMessageToComfyAgent`) -/

/-- The resolved value of `sendMessageToComfyAgent`.  Fields that the
error branch leaves `undefined` are `Option`s. -/
structure AgentResponse where
  chatResponse : List Char
  updatedWorkflow : Option Js
  missingNodes : Option (List Js)
  issues : Option (List WorkflowIssue)
  suggestedActions : List (List Char)
  relatedQuestions : Option Js
  groundingSources : List GSource

/-- `sendMessageToComfyAgent` after the adapter call: the localized
strings it uses are passed in (`t(lang, 'errorPrefix')` etc. live in the
i18n table outside this module), the chosen adapter's outcome is the
`Except` (`error` models any error thrown by request assembly or by the
adapter), and `now` models `Date.now()`.  The catch branch resolves
normally with the error message; the success branch runs the
structured-extraction engine. -/
def sendMessageToComfyAgent (errPre updateMsg actionUndo actionExplain : List Char)
    (adapterResult : Except (List Char) (List Char × List GSource)) (now : Nat) :
    AgentResponse :=
  match adapterResult with
  | .error msg =>
    { chatResponse := errPre ++ ' ' :: (if msg.isEmpty then ("Unknown error".data) else msg)
      updatedWorkflow := none
      missingNodes := none
      issues := none
      suggestedActions := [("Check Settings".data), ("Retry".data)]
      relatedQuestions := none
      groundingSources := [] }
  | .ok res =>
    let textResponse := res.1
    let suggested := extractActions textResponse
    { chatResponse := cleanDisplayText updateMsg textResponse
      updatedWorkflow := extractWorkflow textResponse
      missingNodes := some []
      issues := some (extractIssues now textResponse)
      suggestedActions := if suggested.isEmpty then [actionUndo, actionExplain] else suggested
      relatedQuestions := some (extractRelated textResponse)
      groundingSources := res.2 }

/-! ### Session identity (`sessionIdRef` / `getWorkflowId`) -/

/-- The `extra.workspace_info` object of a serialized graph. -/
structure WsInfo where
  id : Option (List Char)

/-- The `extra` object of a serialized graph. -/
structure WfExtra where
  workspace_info : Option WsInfo
  id : Option (List Char)

/-- The fields of a serialized workflow graph that session-identity
derivation reads. -/
structure Wf where
  id : Option (List Char)
  extra : Option WfExtra

/-- Truthiness of an optionally-present string field. -/
def truthyStr : Option (List Char) → Bool
  | some s => !s.isEmpty
  | none => false

/-- `getWorkflowId`: the graph-carried persistent id, if any —
`wf.id`, else `wf.extra.workspace_info.id`, else `wf.extra.id`, each
subject to a truthiness guard. -/
def getWorkflowId (wf : Option Wf) : Option (List Char) :=
  match wf with
  | none => none
  | some w =>
    if truthyStr w.id then w.id
    else
      match w.extra with
      | some ex =>
        match ex.workspace_info with
        | some wi =>
          if truthyStr wi.id then wi.id
          else if truthyStr ex.id then ex.id
          else none
        | none => if truthyStr ex.id then ex.id else none
      | none => none

/-- One observation of the active graph by the session coordinator
(`syncFromCanvas` and the send path both run
`if (persistentId) sessionIdRef.current = persistentId`). -/
def sessionStep (cur : List Char) (wf : Option Wf) : List Char :=
  match getWorkflowId wf with
  | some g => g
  | none => cur

/-- The session id after a sequence of graph observations, starting from
the load-time random token. -/
def sessionTrace (tok : List Char) (obs : List (Option Wf)) : List Char :=
  obs.foldl sessionStep tok

/-! ### Concrete instances used by witnesses and counterexamples -/

/-- The `messages` value of the spec's Scenario A. -/
def msgsVal : Js :=
  .arr (.cons (.obj (.cons ("role".data) (.str ("user".data))
    (.cons ("content".data) (.str ("hi".data)) .nil))) .nil)

/-- A composite value whose serialization contains the replacement
pattern `$&`, which `String.prototype.replace` expands. -/
def dollarAmpVal : Js := .obj (.cons ("a".data) (.str ("$&".data)) .nil)

/-- A custom configuration whose headers template is not JSON. -/
def sampleBadHeadersCfg : CustomSettings :=
  ⟨("http://h".data), ("m".data), none,
    some ⟨none, some ("nope".data), some ("\x7b\x7d".data)⟩⟩

/-- A custom configuration whose body template is not JSON. -/
def sampleBadBodyCfg : CustomSettings :=
  ⟨("http://h".data), ("m".data), none,
    some ⟨none, some ("\x7b\x7d".data), some ("nope".data)⟩⟩

/-- The captured issues array of the sample response text. -/
def c5raw : List Char :=
  ("[\x7b\"nodeId\":3,\"severity\":\"error\",\"message\":\"bad\"\x7d]").data

/-- The tail of the sample response text: a truncated (unclosed)
related-questions tag. -/
def c5post : List Char := ("\nRELATED_QUESTIONS: [\"q1\"").data

/-- A response text with a valid issues region and a truncated
related-questions region. -/
def c5text : List Char := ("Here ISSUES_JSON: ".data) ++ c5raw ++ c5post

/-- The parsed issue list of `c5raw`. -/
def c5parsed : JsA :=
  .cons (.obj (.cons ("nodeId".data) (.num ("3".data))
    (.cons ("severity".data) (.str ("error".data))
    (.cons ("message".data) (.str ("bad".data)) .nil)))) .nil

/-- A response body whose `choices[0]` is truthy but matches neither
chat-completion shape, alongside a flat `content` field. -/
def c6data : Js :=
  .obj (.cons ("choices".data) (.arr (.cons (.obj .nil) .nil))
    (.cons ("content".data) (.str ("ok".data)) .nil))

/-- The response body of the spec's Scenario D. -/
def c6okData : Js := .obj (.cons ("content".data) (.str ("ok".data)) .nil)

/-! ### Helper lemmas -/

theorem isPrefixOf_self (l : List Char) : l.isPrefixOf l = true := by
  induction l with
  | nil => rfl
  | cons c cs ih => simp [List.isPrefixOf, ih]

theorem jsReplaceAllF_nil (pat rep : List Char) (f : Nat) (before : List Char) :
    jsReplaceAllF pat rep f before [] = [] := by
  cases f <;> simp [jsReplaceAllF]

theorem jsReplaceAll_self (pat rep : List Char) (h : pat ≠ []) :
    jsReplaceAll pat rep pat = expandRepl pat [] [] rep := by
  match pat, h with
  | c :: cs, _ =>
    show jsReplaceAllF (c :: cs) rep (c :: cs).length [] (c :: cs) = _
    rw [List.length_cons, jsReplaceAllF, if_pos ⟨by simp, isPrefixOf_self _⟩]
    rw [List.length_cons, Nat.add_sub_cancel, List.drop_length, jsReplaceAllF_nil,
      List.append_nil]

theorem jsReplaceAllF_of_not_contains (pat rep : List Char) :
    ∀ (s : List Char) (f : Nat) (before : List Char),
      containsPat pat s = false → jsReplaceAllF pat rep f before s = s := by
  intro s
  induction s with
  | nil => intro f before _; exact jsReplaceAllF_nil pat rep f before
  | cons c cs ih =>
    intro f before h
    rw [containsPat, Bool.or_eq_false_iff] at h
    cases f with
    | zero => rfl
    | succ f =>
      rw [jsReplaceAllF, if_neg (by simp [h.1]), ih f (before ++ [c]) h.2]

theorem jsReplaceAll_of_not_contains (pat rep s : List Char)
    (h : containsPat pat s = false) : jsReplaceAll pat rep s = s :=
  jsReplaceAllF_of_not_contains pat rep s s.length [] h

theorem expandRepl_of_noDollar (matched before after : List Char) :
    ∀ (rep : List Char), rep.all (fun c => c ≠ '$') = true →
      expandRepl matched before after rep = rep := by
  intro rep
  induction rep with
  | nil => intro _; rfl
  | cons c cs ih =>
    intro h
    rw [List.all_cons, Bool.and_eq_true] at h
    have hc : ¬c = '$' := by simpa using h.1
    rw [expandRepl.eq_def]
    simp only [hc, if_false, ih h.2]

theorem mem_of_isPrefixOf :
    ∀ (pat s : List Char), pat.isPrefixOf s = true → ∀ c ∈ pat, c ∈ s := by
  intro pat
  induction pat with
  | nil =>
    intro s _ c hc
    exact absurd hc (List.not_mem_nil c)
  | cons p ps ih =>
    intro s hp c hc
    cases s with
    | nil => exact absurd hp (by simp [List.isPrefixOf])
    | cons a as =>
      simp only [List.isPrefixOf, Bool.and_eq_true, beq_iff_eq] at hp
      rcases List.mem_cons.mp hc with rfl | hc'
      · rw [hp.1]
        exact List.mem_cons_self _ _
      · exact List.mem_cons_of_mem _ (ih as hp.2 c hc')

theorem containsPat_of_noDollar (pat : List Char) (hp : '$' ∈ pat) :
    ∀ (s : List Char), s.all (fun c => c ≠ '$') = true → containsPat pat s = false := by
  intro s
  induction s with
  | nil =>
    intro _
    cases pat with
    | nil => exact absurd hp (List.not_mem_nil _)
    | cons a as => rfl
  | cons c cs ih =>
    intro h
    rw [List.all_cons, Bool.and_eq_true] at h
    rw [containsPat, Bool.or_eq_false_iff]
    refine ⟨?_, ih h.2⟩
    cases hb : pat.isPrefixOf (c :: cs) with
    | false => rfl
    | true =>
      exfalso
      rcases List.mem_cons.mp (mem_of_isPrefixOf pat (c :: cs) hb '$' hp) with h1 | h1
      · have hcne : ¬c = '$' := by simpa using h.1
        exact hcne h1.symm
      · have h2 := List.all_eq_true.mp h.2 '$' h1
        exact absurd h2 (by decide)

/-! ### C2: placeholder boundary -/

/-- C2 counterexample: with `model` preceding `modelName` in the variable
map (values `X` and `Y`), the template `$modelName` resolves to `XName`,
not to `modelName`'s value `Y` — the `$model` substitution partially
rewrites the longer placeholder, so no exact token boundary is used. -/
theorem c2_counterexample :
    resolveTemplate ("$modelName".data)
      [(("model".data), Js.str ("X".data)), (("modelName".data), Js.str ("Y".data))]
      = ("XName".data)
    ∧ ("XName".data : List Char) ≠ ("Y".data) :=
  ⟨by decide, by decide⟩

/-- C2 (amended): substitution is plain global substring replacement in
variable-map key order with no token boundaries, and the substituted
value passes through JavaScript's replacement-pattern expansion; when the
key `modelName` precedes `model` and its value contains no dollar sign
(so it neither contains the text `$model` nor engages the replacement
patterns of `String.prototype.replace`), each placeholder is substituted
independently (the occurrence of `$modelName` receives `modelName`'s
value); when `model` precedes `modelName`, the `$model` substitution
rewrites the leading part of `$modelName` (see the counterexample). -/
theorem c2_amended (vN vM : List Char)
    (h : vN.all (fun c => c ≠ '$') = true) :
    resolveTemplate ("$modelName".data)
      [(("modelName".data), Js.str vN), (("model".data), Js.str vM)] = vN := by
  show resolveVar (resolveVar ("$modelName".data) (("modelName".data), Js.str vN))
      (("model".data), Js.str vM) = vN
  have h1 : resolveVar ("$modelName".data) (("modelName".data), Js.str vN) = vN := by
    have hs := jsReplaceAll_self ("$modelName".data) vN (by decide)
    rw [expandRepl_of_noDollar _ _ _ vN h] at hs
    exact hs
  rw [h1]
  exact jsReplaceAll_of_not_contains ("$model".data) vM vN
    (containsPat_of_noDollar ("$model".data) (by decide) vN h)

/-- C2 amended witness at concrete values. -/
theorem c2_amended_witness :
    resolveTemplate ("$modelName".data)
      [(("modelName".data), Js.str ("Y".data)), (("model".data), Js.str ("X".data))]
      = ("Y".data) :=
  c2_amended ("Y".data) ("X".data) (by decide)

/-! ### C3: quoting forms for composite values -/

/-- C3 counterexample: for the composite value `{"a":"$&"}`, whose
serialization contains the replacement pattern `$&`,
`String.prototype.replace` re-inserts the matched placeholder text while
substituting, so the bare and double-quoted placeholder forms resolve to
different strings, and the bare form does not equal the value's
serialization — the quoting forms are not identical for every composite
value. -/
theorem c3_counterexample :
    resolveTemplate ('$' :: ("x".data)) [(("x".data), dollarAmpVal)]
      ≠ resolveTemplate ('"' :: '$' :: ("x".data) ++ ['"']) [(("x".data), dollarAmpVal)]
    ∧ resolveTemplate ('$' :: ("x".data)) [(("x".data), dollarAmpVal)]
      ≠ stringify dollarAmpVal :=
  ⟨by decide, by decide⟩

/-- C3 (amended): for a composite (object/array) value whose compact
serialization contains no dollar sign (so it engages neither the
placeholder text nor the replacement patterns of
`String.prototype.replace`), the template consisting of the
double-quoted, single-quoted, or bare placeholder resolves to the same
unquoted compact JSON serialization; values whose serialization contains
dollar patterns are mangled by replacement-pattern expansion (see the
counterexample).  The concrete body template of the spec's Scenario A,
whose values contain no dollar sign, resolves exactly as specified. -/
theorem c3_amended :
    (∀ (v : Js) (name : List Char),
      isObjectLike v = true →
      (stringify v).all (fun c => c ≠ '$') = true →
      containsPat ('"' :: '$' :: name ++ ['"']) (squote :: '$' :: name ++ [squote]) = false →
      containsPat ('"' :: '$' :: name ++ ['"']) ('$' :: name) = false →
      containsPat (squote :: '$' :: name ++ [squote]) ('$' :: name) = false →
      (resolveTemplate ('"' :: '$' :: name ++ ['"']) [(name, v)] = stringify v ∧
       resolveTemplate (squote :: '$' :: name ++ [squote]) [(name, v)] = stringify v ∧
       resolveTemplate ('$' :: name) [(name, v)] = stringify v))
    ∧ resolveTemplate ("\x7b\"model\":\"$model\",\"messages\":$messages\x7d".data)
        [(("model".data), Js.str ("m1".data)), (("messages".data), msgsVal)]
      = ("\x7b\"model\":\"m1\",\"messages\":[\x7b\"role\":\"user\",\"content\":\"hi\"\x7d]\x7d".data) := by
  constructor
  · intro v name hobj hnd hdqsq hdqbare hsqbare
    refine ⟨?_, ?_, ?_⟩
    · show resolveVar ('"' :: '$' :: name ++ ['"']) (name, v) = stringify v
      simp only [resolveVar, hobj, if_true]
      rw [jsReplaceAll_self _ _ (by simp),
        expandRepl_of_noDollar _ _ _ _ hnd,
        jsReplaceAll_of_not_contains _ _ _
          (containsPat_of_noDollar _ (by simp) _ hnd),
        jsReplaceAll_of_not_contains _ _ _
          (containsPat_of_noDollar _ (by simp) _ hnd)]
    · show resolveVar (squote :: '$' :: name ++ [squote]) (name, v) = stringify v
      simp only [resolveVar, hobj, if_true]
      rw [jsReplaceAll_of_not_contains _ _ _ hdqsq,
        jsReplaceAll_self _ _ (by simp),
        expandRepl_of_noDollar _ _ _ _ hnd,
        jsReplaceAll_of_not_contains _ _ _
          (containsPat_of_noDollar _ (by simp) _ hnd)]
    · show resolveVar ('$' :: name) (name, v) = stringify v
      simp only [resolveVar, hobj, if_true]
      rw [jsReplaceAll_of_not_contains _ _ _ hdqbare,
        jsReplaceAll_of_not_contains _ _ _ hsqbare,
        jsReplaceAll_self _ _ (by simp),
        expandRepl_of_noDollar _ _ _ _ hnd]
  · decide

/-- C3 amended witness: the double-quoted placeholder for a concrete
dollar-free array value splices the raw serialization. -/
theorem c3_witness :
    resolveTemplate ('"' :: '$' :: ("x".data) ++ ['"'])
        [(("x".data), Js.arr (.cons (.str ("a".data)) .nil))]
      = stringify (Js.arr (.cons (.str ("a".data)) .nil)) :=
  (c3_amended.1 (Js.arr (.cons (.str ("a".data)) .nil)) ("x".data)
    (by decide) (by decide) (by decide) (by decide) (by decide)).1

/-! ### C4: custom-API template validation -/

/-- C4: in the custom-API adapter, when the base address is present, a
headers template that does not resolve to JSON aborts the call with the
headers-naming error, a body template that does not resolve to JSON
aborts it with the distinct body-naming error, and an aborted call never
produces an `HttpRequest` (so no request is sent and, since the source
invokes the delta callback only after the response, no partial text is
produced). -/
theorem c4_template_validation (s : CustomSettings) (prompt sysInstr : List Char)
    (hbase : s.baseUrl ≠ []) :
    (parseJson (resolvedHeadersStr s prompt sysInstr) = none →
      callCustomRequest s prompt sysInstr = .error ("Invalid Headers Configuration".data))
    ∧ (∀ hv, parseJson (resolvedHeadersStr s prompt sysInstr) = some hv →
        parseJson (resolvedBodyStr s prompt sysInstr) = none →
        callCustomRequest s prompt sysInstr = .error ("Invalid Body Template JSON".data))
    ∧ (("Invalid Headers Configuration".data : List Char) ≠ ("Invalid Body Template JSON".data))
    ∧ (∀ e req, callCustomRequest s prompt sysInstr = .error e →
        callCustomRequest s prompt sysInstr ≠ .ok req) := by
  have hb : s.baseUrl.isEmpty = false := by
    cases hh : s.baseUrl with
    | nil => exact absurd hh hbase
    | cons c cs => rfl
  refine ⟨?_, ?_, by decide, ?_⟩
  · intro hp
    simp only [callCustomRequest, hb, Bool.false_eq_true, if_false, hp]
  · intro hv hp1 hp2
    simp only [callCustomRequest, hb, Bool.false_eq_true, if_false, hp1, hp2]
  · intro e req he hok
    rw [he] at hok
    exact Except.noConfusion hok

/-- C4 witness: concrete configurations with a malformed headers template
and a malformed body template produce the two distinct errors. -/
theorem c4_witness :
    callCustomRequest sampleBadHeadersCfg ("p".data) ("s".data)
      = .error ("Invalid Headers Configuration".data)
    ∧ callCustomRequest sampleBadBodyCfg ("p".data) ("s".data)
      = .error ("Invalid Body Template JSON".data) :=
  ⟨(c4_template_validation sampleBadHeadersCfg ("p".data) ("s".data) (by decide)).1 rfl,
   (c4_template_validation sampleBadBodyCfg ("p".data) ("s".data) (by decide)).2.1
     (Js.obj .nil) rfl rfl⟩

/-! ### C9: one-way session-identity promotion -/

/-- Foldl invariant for session promotion: if no observed graph carries
the random token as its id, and either some prefix observation carried an
id or the current id already differs from the token, then the session id
after the observations is not the token. -/
theorem sessionTrace_ne_of (tok : List Char) :
    ∀ (l : List (Option Wf)) (cur : List Char),
      (∀ wf ∈ l, getWorkflowId wf ≠ some tok) →
      ((∃ wf ∈ l, getWorkflowId wf ≠ none) ∨ cur ≠ tok) →
      l.foldl sessionStep cur ≠ tok := by
  intro l
  induction l with
  | nil =>
    intro cur _ h
    rcases h with h | h
    · rcases h with ⟨wf, hmem, _⟩
      exact absurd hmem (List.not_mem_nil wf)
    · simpa using h
  | cons wf l' ih =>
    intro cur hids h
    rw [List.foldl_cons]
    rcases hg : getWorkflowId wf with _ | g
    · have hstep : sessionStep cur wf = cur := by simp [sessionStep, hg]
      rw [hstep]
      apply ih cur (fun w hw => hids w (List.mem_cons_of_mem _ hw))
      rcases h with ⟨w, hw, hne⟩ | hcur
      · rcases List.mem_cons.mp hw with rfl | hw'
        · exact absurd hg hne
        · exact Or.inl ⟨w, hw', hne⟩
      · exact Or.inr hcur
    · have hstep : sessionStep cur wf = g := by simp [sessionStep, hg]
      rw [hstep]
      apply ih g (fun w hw => hids w (List.mem_cons_of_mem _ hw))
      refine Or.inr (fun hgt => ?_)
      exact hids wf (List.mem_cons_self wf l') (by rw [hg, hgt])

/-- C9: the session id starts as the load-time random token and is
promoted by graph-carried ids; once any observation in a prefix of the
trace carried a persistent id (and graph ids are distinct from the
token), the id used for requests in that prefix is never the original
random token again — later graphs without an id do not revert it. -/
theorem c9_session_promotion (tok : List Char) (obs : List (Option Wf))
    (hids : ∀ wf ∈ obs, getWorkflowId wf ≠ some tok) (k : Nat)
    (hseen : ∃ wf ∈ obs.take k, getWorkflowId wf ≠ none) :
    sessionTrace tok (obs.take k) ≠ tok := by
  apply sessionTrace_ne_of tok (obs.take k) tok
  · intro wf hwf
    exact hids wf (List.take_subset k obs hwf)
  · exact Or.inl hseen

/-- C9 witness: a graph with id `g` followed by a graph without an id
leaves the session id at `g`, not the token. -/
theorem c9_witness :
    sessionTrace ("r".data)
      (([some ⟨some ("g".data), none⟩, some ⟨none, none⟩] :
        List (Option Wf)).take 2) ≠ ("r".data) :=
  c9_session_promotion ("r".data)
    [some ⟨some ("g".data), none⟩, some ⟨none, none⟩]
    (by decide) 2 (by decide)

/-! ### C10: the uniform contract never rejects -/

/-- C10: whenever request assembly or the chosen adapter throws,
`sendMessageToComfyAgent` resolves normally: the chat response is the
localized error prefix followed by the error text, the updated workflow
is null, the fallback suggested actions are offered, and no sources are
reported; callers never observe a rejection. -/
theorem c10_error_resolution (errPre updateMsg actionUndo actionExplain msg : List Char)
    (now : Nat) (hmsg : msg ≠ []) :
    sendMessageToComfyAgent errPre updateMsg actionUndo actionExplain (.error msg) now
      = ⟨errPre ++ ' ' :: msg, none, none, none,
         [("Check Settings".data), ("Retry".data)], none, []⟩ := by
  match msg, hmsg with
  | c :: cs, _ => rfl

/-- C10 witness at a concrete error. -/
theorem c10_witness :
    sendMessageToComfyAgent ("Error:".data) ("upd".data) ("undo".data) ("explain".data)
      (.error ("boom".data)) 0
      = ⟨("Error: boom".data), none, none, none,
         [("Check Settings".data), ("Retry".data)], none, []⟩ :=
  c10_error_resolution ("Error:".data) ("upd".data) ("undo".data) ("explain".data)
    ("boom".data) 0 (by decide)

/-! ### C8: suggested-actions item normalization -/

/-- C8 counterexample: an item with an interior apostrophe has that
apostrophe removed — `replace(/['"]/g, '')` strips quote characters
everywhere in the item, not only surrounding ones, so the interior is not
left unchanged. -/
theorem c8_counterexample :
    extractActions ("SUGGESTED_ACTIONS: [Don\x27t panic]".data) = [("Dont panic".data)]
    ∧ ("Dont panic".data : List Char) ≠ ("Don\x27t panic".data) :=
  ⟨by decide, by decide⟩

/-- C8 (amended): suggested-actions extraction takes the bracketed list
after the label by simple bracket-content extraction (not JSON-strict),
splits it on commas, and for each item strips surrounding whitespace and
removes every single- or double-quote character wherever it occurs in the
item (interior quote characters are removed too); consequently no
extracted item contains a quote character. -/
theorem c8_amended :
    (∀ text pre cap post,
      findActions text = some (pre, cap, post) → cap ≠ [] →
      extractActions text
        = (splitComma cap).map (fun s => (jsTrim s).filter (fun c => !(c = squote || c = '"'))))
    ∧ (∀ text item, item ∈ extractActions text → ∀ c ∈ item, c ≠ squote ∧ c ≠ '"') := by
  constructor
  · intro text pre cap post hfind hne
    have hce : cap.isEmpty = false := by
      cases hc : cap with
      | nil => exact absurd hc hne
      | cons a b => rfl
    simp only [extractActions, hfind, hce, Bool.false_eq_true, if_false]
  · intro text item hmem c hc
    unfold extractActions at hmem
    rcases hfind : findActions text with _ | r
    · rw [hfind] at hmem
      exact absurd hmem (List.not_mem_nil item)
    · rw [hfind] at hmem
      simp only at hmem
      by_cases hce : r.2.1.isEmpty
      · rw [if_pos hce] at hmem
        exact absurd hmem (List.not_mem_nil item)
      · rw [if_neg hce] at hmem
        rcases List.mem_map.mp hmem with ⟨s, -, rfl⟩
        have hp := List.of_mem_filter hc
        simp only [Bool.not_eq_eq_eq_not, Bool.not_true, Bool.or_eq_false_iff,
          decide_eq_false_iff_not] at hp
        exact hp

/-- C8 amended witness at a concrete text. -/
theorem c8_witness :
    extractActions ("SUGGESTED_ACTIONS: [\x27A\x27, B]".data) = [("A".data), ("B".data)] := by
  rw [c8_amended.1 ("SUGGESTED_ACTIONS: [\x27A\x27, B]".data) [] ("\x27A\x27, B".data) []
    (by decide) (by decide)]
  decide

/-! ### C6: custom-API reply-text extraction -/

theorem stringify_ne_nil (data : Js) (hnum : ∀ raw, data = Js.num raw → raw ≠ []) :
    stringify data ≠ [] := by
  cases data with
  | null => decide
  | bool b => cases b <;> decide
  | num raw => simpa [stringify] using hnum raw rfl
  | str s => simp [stringify]
  | arr l => simp [stringify]
  | obj o => simp [stringify]

theorem truthy_ne_emptyStr (v : Js) (h : truthy v = true) : v ≠ Js.str [] := by
  intro hv
  subst hv
  exact absurd h (by decide)

theorem jsTruthyOpt_truthy (o : Option Js) (v : Js) (h : jsTruthyOpt o = some v) :
    truthy v = true := by
  cases o with
  | none => exact absurd h (by simp [jsTruthyOpt])
  | some w =>
    by_cases ht : truthy w
    · simp only [jsTruthyOpt, ht, if_true, Option.some.injEq] at h
      rw [← h]
      exact ht
    · simp [jsTruthyOpt, ht] at h

/-- C6 counterexample: for the response `{"choices":[{}],"content":"ok"}`
neither `choices[0].message.content` nor `choices[0].text` matches, yet
the flat `content` field is not consulted (the `else if` chain is guarded
by the whole `choices` condition): the returned text is the full
serialized body, not `"ok"` as the claimed priority order requires. -/
theorem c6_counterexample :
    extractCustomText c6data = Js.str (stringify c6data)
    ∧ stringify c6data ≠ ("ok".data) :=
  ⟨rfl, by decide⟩

/-- C6 (amended): reply-text extraction tries, in order,
`choices[0].message.content` then `choices[0].text` whenever the response
has a truthy `choices[0]`; the flat `content` then `response` fields are
consulted only when there is no truthy `choices[0]` (so a present but
shapeless first choice falls through to the serialized body, not to the
flat fields); whenever the selected value is missing or falsy the full
serialized response body is returned, and the returned text is never the
empty string. -/
theorem c6_amended (data : Js)
    (hnum : ∀ raw, data = Js.num raw → raw ≠ []) :
    (extractCustomText data ≠ Js.str [])
    ∧ (∀ c0 m v, choicesCond data = some c0 →
        jsTruthyOpt (jsGet c0 ("message".data)) = some m →
        jsGet m ("content".data) = some v → truthy v = true →
        extractCustomText data = v)
    ∧ (∀ c0 tv, choicesCond data = some c0 →
        jsTruthyOpt (jsGet c0 ("message".data)) = none →
        jsTruthyOpt (jsGet c0 ("text".data)) = some tv →
        extractCustomText data = tv)
    ∧ (∀ c0, choicesCond data = some c0 →
        jsTruthyOpt (jsGet c0 ("message".data)) = none →
        jsTruthyOpt (jsGet c0 ("text".data)) = none →
        extractCustomText data = Js.str (stringify data))
    ∧ (∀ cv, choicesCond data = none →
        jsTruthyOpt (jsGet data ("content".data)) = some cv →
        extractCustomText data = cv)
    ∧ (∀ rv, choicesCond data = none →
        jsTruthyOpt (jsGet data ("content".data)) = none →
        jsTruthyOpt (jsGet data ("response".data)) = some rv →
        extractCustomText data = rv) := by
  refine ⟨?_, ?_, ?_, ?_, ?_, ?_⟩
  · rcases ha : customAssigned data with _ | v
    · simp only [extractCustomText, ha]
      intro heq
      exact stringify_ne_nil data hnum (by injection heq)
    · simp only [extractCustomText, ha]
      by_cases ht : truthy v
      · rw [if_pos ht]
        exact truthy_ne_emptyStr v ht
      · rw [if_neg ht]
        intro heq
        exact stringify_ne_nil data hnum (by injection heq)
  · intro c0 m v h1 h2 h3 h4
    have ha : customAssigned data = some v := by
      simp only [customAssigned, h1, h2, h3]
    simp only [extractCustomText, ha, h4, if_true]
  · intro c0 tv h1 h2 h3
    have ha : customAssigned data = some tv := by
      simp only [customAssigned, h1, h2, h3]
    simp only [extractCustomText, ha, jsTruthyOpt_truthy _ _ h3, if_true]
  · intro c0 h1 h2 h3
    have ha : customAssigned data = none := by
      simp only [customAssigned, h1, h2, h3]
    simp only [extractCustomText, ha]
  · intro cv h1 h2
    have ha : customAssigned data = some cv := by
      simp only [customAssigned, h1, h2]
    simp only [extractCustomText, ha, jsTruthyOpt_truthy _ _ h2, if_true]
  · intro rv h1 h2 h3
    have ha : customAssigned data = some rv := by
      simp only [customAssigned, h1, h2, h3]
    simp only [extractCustomText, ha, jsTruthyOpt_truthy _ _ h3, if_true]

/-- C6 amended witness: the Scenario D response `{"content":"ok"}` yields
text `ok` through the flat-content branch. -/
theorem c6_witness : extractCustomText c6okData = Js.str ("ok".data) :=
  (c6_amended c6okData
    (fun raw h => by simp only [c6okData] at h; exact Js.noConfusion h)).2.2.2.2.1
    (Js.str ("ok".data)) rfl rfl

/-! ### C5: extraction independence -/

theorem tryTaggedAt_capture_ne (s cap post : List Char)
    (h : tryTaggedAt s = some (cap, post)) : cap ≠ [] := by
  simp only [tryTaggedAt] at h
  split at h <;> try exact Option.noConfusion h
  split at h <;> try exact Option.noConfusion h
  split at h <;> try exact Option.noConfusion h
  simp only [Option.some.injEq, Prod.mk.injEq] at h
  exact h.1 ▸ List.cons_ne_nil _ _

theorem findTagged_capture_ne (label : List Char) :
    ∀ (s pre cap post : List Char),
      findTagged label s = some (pre, cap, post) → cap ≠ [] := by
  intro s
  induction s with
  | nil =>
    intro pre cap post h
    exact absurd h (by simp [findTagged])
  | cons c cs ih =>
    intro pre cap post h
    unfold findTagged at h
    by_cases hp : label.isPrefixOf (c :: cs)
    · rw [if_pos hp] at h
      rcases ht : tryTaggedAt ((c :: cs).drop label.length) with _ | r
      · rw [ht] at h
        rcases hf : findTagged label cs with _ | q
        · rw [hf] at h
          exact absurd h (by simp)
        · rw [hf] at h
          simp only [Option.map_some', Option.some.injEq, Prod.mk.injEq] at h
          exact h.2.1 ▸ ih q.1 q.2.1 q.2.2 (by rw [hf])
      · rw [ht] at h
        simp only [Option.some.injEq, Prod.mk.injEq] at h
        exact h.2.1 ▸ tryTaggedAt_capture_ne _ _ _ ht
    · rw [if_neg hp] at h
      rcases hf : findTagged label cs with _ | q
      · rw [hf] at h
        exact absurd h (by simp)
      · rw [hf] at h
        simp only [Option.map_some', Option.some.injEq, Prod.mk.injEq] at h
        exact h.2.1 ▸ ih q.1 q.2.1 q.2.2 (by rw [hf])

/-- C5: whenever a response text carries an issues-tagged region whose
cleaned capture parses as a nonempty JSON array, and its
related-questions tag does not match the extraction pattern (as with a
truncated tag lacking its closing bracket), the extraction step yields a
nonempty issues list and leaves the related-questions list empty — the
failed region never blocks the successful one, and both extractors are
total functions (parse failures are values, not exceptions). -/
theorem c5_extraction_independence (text : List Char) (now : Nat)
    (preI rawI postI : List Char) (l : JsA)
    (hfind : findTagged issuesLabel text = some (preI, rawI, postI))
    (hparse : parseJson (cleanJsonString rawI) = some (Js.arr l))
    (hne : l ≠ JsA.nil)
    (hrel : findTagged relatedLabel text = none) :
    extractIssues now text ≠ [] ∧ extractRelated text = Js.arr JsA.nil := by
  constructor
  · have hce : rawI.isEmpty = false := by
      cases hr : rawI with
      | nil => exact absurd hr (findTagged_capture_ne issuesLabel text preI rawI postI hfind)
      | cons a b => rfl
    simp only [extractIssues, hfind, hce, Bool.false_eq_true, if_false, hparse]
    cases l with
    | nil => exact absurd rfl hne
    | cons hd tl => simp [issuesFromJs]
  · simp [extractRelated, hrel]

/-- C5 witness: the sample text with a valid issues array and a truncated
related-questions tag. -/
theorem c5_witness :
    extractIssues 7 c5text ≠ [] ∧ extractRelated c5text = Js.arr JsA.nil :=
  c5_extraction_independence c5text 7 ("Here ".data) c5raw c5post c5parsed
    (by decide) rfl (fun h => JsA.noConfusion h) (by decide)

/-! ### C1: SSE line buffering is chunking-invariant -/

theorem splitComplete_append (a b : List Char) :
    splitComplete (a ++ b)
      = ((splitComplete a).1 ++ (splitComplete ((splitComplete a).2 ++ b)).1,
         (splitComplete ((splitComplete a).2 ++ b)).2) := by
  induction a with
  | nil => simp [splitComplete]
  | cons c cs ih =>
    rcases hS : splitComplete cs with ⟨l1, b1⟩
    rcases hT : splitComplete (b1 ++ b) with ⟨l2, b2⟩
    rw [hS, hT] at ih
    by_cases hc : c = '\n'
    · subst hc
      show splitComplete ('\n' :: (cs ++ b)) = _
      simp only [splitComplete, if_pos rfl, ih, hS]
      simp [hT]
    · show splitComplete (c :: (cs ++ b)) = _
      simp only [splitComplete, if_neg hc, ih, hS]
      cases l1 with
      | nil =>
        cases l2 with
        | nil =>
          simp only [List.nil_append, List.cons_append, splitComplete, if_neg hc,
            List.append_eq, hT]
        | cons l ls =>
          simp only [List.nil_append, List.cons_append, splitComplete, if_neg hc,
            List.append_eq, hT]
      | cons l ls =>
        simp only [List.cons_append, hT]

theorem processChunk_append (acc : StreamAcc) (a b : List Char) :
    processChunk (processChunk acc a) b = processChunk acc (a ++ b) := by
  simp only [processChunk]
  rw [← List.append_assoc, splitComplete_append (acc.buffer ++ a) b]
  simp [List.foldl_append]

theorem processChunks_concat (chunks : List (List Char)) :
    ∀ (acc : StreamAcc) (a : List Char),
      chunks.foldl processChunk (processChunk acc a) = processChunk acc (a ++ chunks.flatten) := by
  induction chunks with
  | nil => intro acc a; simp
  | cons ch chs ih =>
    intro acc a
    rw [List.foldl_cons, processChunk_append acc a ch, ih, List.flatten_cons,
      List.append_assoc]

/-- C1: for every sequence of SSE events and every way of splitting the
decoded payload into chunks (including mid-line splits), the read loop
reaches the same state — the same ordered sequence of delta and status
callback invocations, the same accumulated text, and the same trailing
buffer — as when the whole payload is delivered as one chunk: a trailing
partial line of one read is prefixed onto the next read and never dropped
or double-counted. -/
theorem c1_sse_chunking_invariance (chunks : List (List Char)) :
    processChunks chunks = processChunk initStream chunks.flatten := by
  cases chunks with
  | nil => rfl
  | cons ch chs =>
    show chs.foldl processChunk (processChunk initStream ch) = _
    rw [processChunks_concat chs initStream ch, List.flatten_cons]

/-! ### C7: grounding-source de-duplication -/

theorem mem_firstSeenAux (y : List Char) :
    ∀ (xs seen : List (List Char)), y ∈ firstSeenAux seen xs ↔ y ∈ xs ∧ y ∉ seen := by
  intro xs
  induction xs with
  | nil => intro seen; simp [firstSeenAux]
  | cons x xs ih =>
    intro seen
    by_cases hx : x ∈ seen
    · rw [firstSeenAux, if_pos hx, ih]
      constructor
      · rintro ⟨h1, h2⟩
        exact ⟨List.mem_cons_of_mem _ h1, h2⟩
      · rintro ⟨h1, h2⟩
        rcases List.mem_cons.mp h1 with rfl | h1'
        · exact absurd hx h2
        · exact ⟨h1', h2⟩
    · rw [firstSeenAux, if_neg hx]
      constructor
      · intro hmem
        rcases List.mem_cons.mp hmem with rfl | h1'
        · exact ⟨List.mem_cons_self _ _, hx⟩
        · have h2 := (ih (x :: seen)).mp h1'
          exact ⟨List.mem_cons_of_mem _ h2.1, fun hs => h2.2 (List.mem_cons_of_mem _ hs)⟩
      · rintro ⟨h1, h2⟩
        rcases List.mem_cons.mp h1 with rfl | h1'
        · exact List.mem_cons_self _ _
        · by_cases hyx : y = x
          · subst hyx
            exact List.mem_cons_self _ _
          · refine List.mem_cons_of_mem _ ((ih (x :: seen)).mpr ⟨h1', fun hs => ?_⟩)
            rcases List.mem_cons.mp hs with h | h
            · exact hyx h
            · exact h2 h

theorem nodup_firstSeenAux :
    ∀ (xs seen : List (List Char)), (firstSeenAux seen xs).Nodup := by
  intro xs
  induction xs with
  | nil => intro seen; simp [firstSeenAux]
  | cons x xs ih =>
    intro seen
    rw [firstSeenAux]
    by_cases hx : x ∈ seen
    · rw [if_pos hx]
      exact ih seen
    · rw [if_neg hx]
      refine List.nodup_cons.mpr ⟨fun hmem => ?_, ih (x :: seen)⟩
      exact ((mem_firstSeenAux x xs (x :: seen)).mp hmem).2 (List.mem_cons_self _ _)

theorem firstSeenAux_append (x : List Char) :
    ∀ (xs seen : List (List Char)),
      firstSeenAux seen (xs ++ [x])
        = firstSeenAux seen xs ++ (if x ∈ seen ∨ x ∈ xs then [] else [x]) := by
  intro xs
  induction xs with
  | nil =>
    intro seen
    by_cases hx : x ∈ seen
    · simp [firstSeenAux, hx]
    · simp [firstSeenAux, hx]
  | cons a xs ih =>
    intro seen
    simp only [List.cons_append, firstSeenAux, List.append_eq]
    by_cases ha : a ∈ seen
    · rw [if_pos ha, if_pos ha, ih seen]
      congr 1
      by_cases hmem : x ∈ seen ∨ x ∈ xs
      · rw [if_pos hmem, if_pos (by
          rcases hmem with h | h
          · exact Or.inl h
          · exact Or.inr (List.mem_cons_of_mem _ h))]
      · rw [if_neg hmem, if_neg (by
          rintro (h | h)
          · exact hmem (Or.inl h)
          · rcases List.mem_cons.mp h with rfl | h'
            · exact hmem (Or.inl ha)
            · exact hmem (Or.inr h'))]
    · rw [if_neg ha, if_neg ha, ih (a :: seen), List.cons_append]
      congr 2
      by_cases hmem : x ∈ a :: seen ∨ x ∈ xs
      · rw [if_pos hmem, if_pos (by
          rcases hmem with h | h
          · rcases List.mem_cons.mp h with rfl | h'
            · exact Or.inr (List.mem_cons_self _ _)
            · exact Or.inl h'
          · exact Or.inr (List.mem_cons_of_mem _ h))]
      · rw [if_neg hmem, if_neg (by
          rintro (h | h)
          · exact hmem (Or.inl (List.mem_cons_of_mem _ h))
          · rcases List.mem_cons.mp h with rfl | h'
            · exact hmem (Or.inl (List.mem_cons_self _ _))
            · exact hmem (Or.inr h'))]

theorem jsMapInsert_uris (m : List GSource) (s : GSource) :
    (jsMapInsert m s).map (fun t => t.uri)
      = if s.uri ∈ m.map (fun t => t.uri) then m.map (fun t => t.uri)
        else m.map (fun t => t.uri) ++ [s.uri] := by
  by_cases hmem : s.uri ∈ m.map (fun t => t.uri)
  · have hany : m.any (fun t => t.uri = s.uri) = true := by
      rcases List.mem_map.mp hmem with ⟨t, ht, hte⟩
      exact List.any_eq_true.mpr ⟨t, ht, by simp [hte]⟩
    rw [if_pos hmem]
    simp only [jsMapInsert, hany, if_true, List.map_map]
    refine List.map_congr_left (fun t ht => ?_)
    by_cases h : t.uri = s.uri
    · simp [h]
    · simp [h]
  · have hany : m.any (fun t => t.uri = s.uri) = false := by
      rw [List.any_eq_false]
      intro t ht hte
      exact hmem (List.mem_map.mpr ⟨t, ht, by simpa using hte⟩)
    rw [if_neg hmem]
    simp [jsMapInsert, hany]

theorem mem_jsMapInsert (m : List GSource) (s t : GSource) (ht : t ∈ jsMapInsert m s) :
    t = s ∨ (t ∈ m ∧ t.uri ≠ s.uri) := by
  by_cases hany : m.any (fun u => u.uri = s.uri) = true
  · simp only [jsMapInsert, hany, if_true] at ht
    rcases List.mem_map.mp ht with ⟨u, hu, hut⟩
    by_cases h : u.uri = s.uri
    · left
      rw [← hut]
      simp [h]
    · right
      have hu' : (if u.uri = s.uri then s else u) = u := by simp [h]
      rw [← hut, hu']
      exact ⟨hu, h⟩
  · simp only [jsMapInsert, hany, Bool.false_eq_true, if_false] at ht
    rcases List.mem_append.mp ht with h | h
    · right
      refine ⟨h, fun he => ?_⟩
      exact hany (List.any_eq_true.mpr ⟨t, h, by simp [he]⟩)
    · left
      simpa using h

/-- The combined induction for `dedupeByUri`: result uris are the
first-seen de-duplication of the input uris, and each surviving entry
carries the title of the last input entry with its uri. -/
theorem dedupe_props (l : List GSource) :
    ((dedupeByUri l).map (fun t => t.uri) = firstSeen (l.map (fun t => t.uri)))
    ∧ (∀ t ∈ dedupeByUri l,
        ((l.reverse.find? (fun u => u.uri == t.uri)).map (fun u => u.title)) = some t.title) := by
  induction l using List.reverseRecOn with
  | nil =>
    exact ⟨rfl, fun t ht => absurd ht (List.not_mem_nil t)⟩
  | append_singleton l s ih =>
    have hd : dedupeByUri (l ++ [s]) = jsMapInsert (dedupeByUri l) s := by
      unfold dedupeByUri
      rw [List.foldl_append]
      rfl
    have hmemiff : (s.uri ∈ (dedupeByUri l).map (fun t => t.uri))
        ↔ s.uri ∈ l.map (fun t => t.uri) := by
      rw [ih.1, firstSeen, mem_firstSeenAux]
      simp
    constructor
    · rw [hd, jsMapInsert_uris, List.map_append]
      simp only [List.map_cons, List.map_nil]
      rw [firstSeen, firstSeenAux_append, ← firstSeen, ← ih.1]
      by_cases hmem : s.uri ∈ (dedupeByUri l).map (fun t => t.uri)
      · rw [if_pos hmem, if_pos (Or.inr (hmemiff.mp hmem))]
        simp
      · rw [if_neg hmem, if_neg (by
          rintro (h | h)
          · exact absurd h (List.not_mem_nil _)
          · exact hmem (hmemiff.mpr h))]
    · intro t ht
      rw [hd] at ht
      rcases mem_jsMapInsert _ _ _ ht with rfl | ⟨htm, hne⟩
      · rw [List.reverse_append, List.reverse_singleton, List.singleton_append,
          List.find?_cons_of_pos _ (by simp)]
        rfl
      · rw [List.reverse_append, List.reverse_singleton, List.singleton_append,
          List.find?_cons_of_neg _ (by simpa using Ne.symm hne)]
        exact ih.2 t htm

/-- C7 counterexample: two citations with the same uri and titles `t1`
then `t2` de-duplicate to the single entry carrying the last-seen title
`t2`, not the first-seen title `t1` — `Map.set` overwrites the stored
value while keeping the key position. -/
theorem c7_counterexample :
    dedupeByUri [⟨("u".data), ("t1".data)⟩, ⟨("u".data), ("t2".data)⟩]
      = [⟨("u".data), ("t2".data)⟩]
    ∧ (⟨("u".data), ("t2".data)⟩ : GSource) ≠ ⟨("u".data), ("t1".data)⟩ :=
  ⟨by decide, by decide⟩

/-- C7 (amended): the de-duplicated source list has exactly one entry per
distinct uri, entries appear in first-seen order of their uris, and each
entry keeps the last-seen title for its uri (not the first-seen one). -/
theorem c7_amended (l : List GSource) :
    ((dedupeByUri l).map (fun t => t.uri) = firstSeen (l.map (fun t => t.uri)))
    ∧ ((dedupeByUri l).map (fun t => t.uri)).Nodup
    ∧ (∀ t ∈ dedupeByUri l,
        ((l.reverse.find? (fun u => u.uri == t.uri)).map (fun u => u.title)) = some t.title) :=
  ⟨(dedupe_props l).1,
   by rw [(dedupe_props l).1, firstSeen]; exact nodup_firstSeenAux _ _,
   (dedupe_props l).2⟩

/-- C7 amended witness at a concrete duplicated-uri list. -/
theorem c7_witness :
    (([⟨("u".data), ("t1".data)⟩, ⟨("u".data), ("t2".data)⟩] :
        List GSource).reverse.find?
      (fun u => u.uri == (GSource.mk ("u".data) ("t2".data)).uri)).map (fun u => u.title)
      = some (GSource.mk ("u".data) ("t2".data)).title :=
  (c7_amended [⟨("u".data), ("t1".data)⟩, ⟨("u".data), ("t2".data)⟩]).2.2
    ⟨("u".data), ("t2".data)⟩ (by decide)
